import Mathlib

/-!
Shallow embedding of `src/video_dedupe.py` (the duplicate-detection engine:
filename parser, fingerprint extraction, record store, duplicate matcher and
the `process_video` entry point), together with theorems settling the
specification claims about it.

Modelling conventions:
* Python strings are modelled by `String` / `List Char` (code points).
* The regex character classes `\d` and `\s` (and `str.strip` / `str.lower`)
  are modelled by their ASCII meaning; the filenames the claims are about are
  ASCII-shaped, and no claim hinges on exotic Unicode digits or spaces.
* The persisted store file is modelled by its content, a `String`; a missing
  file behaves exactly like empty content (`os.path.exists` guard at line 122
  of the source).  Text-mode newline translation (CRLF) is outside the model:
  reading is modelled as splitting on `'\n'`, and theorems about persisted
  data exclude `'\r'` by hypothesis so that they also hold verbatim of the
  platform text modes.
* The external video decode (`cv2.VideoCapture` + `read`) is an input of the
  model: `process_video` receives `Option Frame`, `none` modelling a frame
  that cannot be decoded, `some f` the RGB-converted first frame
  (`cv2.cvtColor(frame, COLOR_BGR2RGB)` at line 166; pixels are `uint8`
  triples, hence `Fin 256`).
* Paths are POSIX-modelled: `os.path.basename` takes the part after the last
  `'/'`.
-/

set_option autoImplicit false

namespace VideoDedupe

/-! ## Character classes and Python string helpers -/

/-- ASCII model of the regex class `\d`. -/
def pyIsDigit (c : Char) : Bool := '0' ≤ c && c ≤ '9'

/-- ASCII model of the regex class `\s` and of the default strip set of
`str.strip()`: space, tab, newline, carriage return, vertical tab, form feed. -/
def pyIsSpace (c : Char) : Bool :=
  c = ' ' || c = '\t' || c = '\n' || c = '\r' || c = '\x0b' || c = '\x0c'

/-- Model of `str.strip()` on a character list: drop leading and trailing
whitespace. -/
def pyStripChars (l : List Char) : List Char :=
  ((l.dropWhile pyIsSpace).reverse.dropWhile pyIsSpace).reverse

/-- Model of `str.strip()`. -/
def pyStrip (s : String) : String := String.mk (pyStripChars s.data)

/-- Model of `str.lower()` (ASCII). -/
def pyLower (s : String) : String := String.mk (s.data.map Char.toLower)

/-! ## `os.path.splitext` and `os.path.basename` -/

/-- Index of the last occurrence of a character, as in Python's `str.rfind`
(`none` when absent). -/
def lastIndexOf (c : Char) : List Char → Option Nat
  | [] => none
  | a :: rest =>
    match lastIndexOf c rest with
    | some i => some (i + 1)
    | none => if a = c then some 0 else none

/-- The root part of CPython's `os.path.splitext` (POSIX): split at the last
`'.'` that lies after the last `'/'`, unless every character between them is a
`'.'` (leading dots do not start an extension). -/
def splitextRoot (s : List Char) : List Char :=
  let sepIdx : Option Nat := lastIndexOf '/' s
  let start : Nat := match sepIdx with | some i => i + 1 | none => 0
  match lastIndexOf '.' s with
  | none => s
  | some d =>
    if (match sepIdx with | some i => decide (i < d) | none => true : Bool) then
      if (List.range (d - start)).any (fun k => s.getD (start + k) '.' != '.') then
        s.take d
      else s
    else s

/-- POSIX `os.path.basename`: everything after the last `'/'`. -/
def basename (p : String) : String :=
  String.mk ((p.data.reverse.takeWhile (fun c => c != '/')).reverse)

/-! ## The filename pattern `NAME_PATTERN`

`NAME_PATTERN` (source lines 26–31) is
`^(\d{4}-\d{2}-\d{2}_\d{2}-\d{2}-\d{2})\s+(\d+)\s*(?:\([^\)]*\))?\s*(.*)$`,
used via `re.match`.  The embedding below is a deterministic matcher whose
result agrees with the leftmost-greedy backtracking semantics of the pattern:

* the timestamp part has only fixed-width pieces, so it is a literal shape
  match;
* `\s+` before `(\d+)` and `(\d+)` itself can be taken maximal-munch: `\s` and
  `\d` are disjoint, and giving digits back from `\d+` only moves them into
  `(.*)`, which succeeds whenever the greedy split succeeds, so backtracking
  never rescues a failed match nor changes the reported groups;
* in the tail `\s*(?:\([^\)]*\))?\s*(.*)$`, `[^\)]*\)` deterministically
  consumes through the first `')'`; the engine tries the parenthesised branch
  at the position after the maximal `\s*` run and falls back to treating the
  text literally in `(.*)` when that branch (or its continuation) fails —
  shorter `\s*` runs only re-create the same positions and never help;
* `.` does not match `'\n'` and `$` matches at the end or just before one
  final `'\n'`, captured exactly by `dotStarDollar`.
-/

/-- The fixed-shape group `(\d{4}-\d{2}-\d{2}_\d{2}-\d{2}-\d{2})`: on success,
the 19 consumed characters and the rest. -/
def matchTimestamp (s : List Char) : Option (List Char × List Char) :=
  match s with
  | c1 :: c2 :: c3 :: c4 :: '-' :: c5 :: c6 :: '-' :: c7 :: c8 :: '_' ::
      c9 :: c10 :: '-' :: c11 :: c12 :: '-' :: c13 :: c14 :: rest =>
    if [c1, c2, c3, c4, c5, c6, c7, c8, c9, c10, c11, c12, c13, c14].all pyIsDigit then
      some ([c1, c2, c3, c4, '-', c5, c6, '-', c7, c8, '_',
             c9, c10, '-', c11, c12, '-', c13, c14], rest)
    else none
  | _ => none

/-- `\([^\)]*\)`: consume an opening parenthesis through the first `')'`. -/
def matchParen (t : List Char) : Option (List Char) :=
  match t with
  | '(' :: r =>
    match r.dropWhile (fun c => c != ')') with
    | ')' :: r3 => some r3
    | _ => none
  | _ => none

/-- `(.*)$` with Python semantics: `.` excludes `'\n'`; `$` matches at the end
of the string or just before a single final `'\n'`.  Returns the captured
group. -/
def dotStarDollar (s : List Char) : Option (List Char) :=
  if s.all (fun c => c != '\n') then some s
  else if s.getLast? = some '\n' && s.dropLast.all (fun c => c != '\n') then
    some s.dropLast
  else none

/-- The pattern tail `\s*(?:\([^\)]*\))?\s*(.*)$`; returns group 3. -/
def matchTail (t : List Char) : Option (List Char) :=
  let t1 := t.dropWhile pyIsSpace
  match matchParen t1 with
  | some t2 =>
    match dotStarDollar (t2.dropWhile pyIsSpace) with
    | some g => some g
    | none => dotStarDollar t1
  | none => dotStarDollar t1

/-- `NAME_PATTERN.match`: on success the three captured groups
(timestamp, code, raw remainder). -/
def nameMatch (s : List Char) : Option (List Char × List Char × List Char) :=
  match matchTimestamp s with
  | none => none
  | some (g1, r1) =>
    let w := r1.takeWhile pyIsSpace
    let r2 := r1.dropWhile pyIsSpace
    if w.isEmpty then none
    else
      let ds := r2.takeWhile pyIsDigit
      let r3 := r2.dropWhile pyIsDigit
      if ds.isEmpty then none
      else
        match matchTail r3 with
        | some g3 => some (g1, ds, g3)
        | none => none

/-- `parse_name_parts` (source lines 57–66): strip the extension, match
`NAME_PATTERN`; on a match return the groups with the remainder stripped,
otherwise `(None, None, base)`. -/
def parse_name_parts (filename : String) : Option String × Option String × String :=
  let base := splitextRoot filename.data
  match nameMatch base with
  | some (d, c, t) => (some (String.mk d), some (String.mk c), String.mk (pyStripChars t))
  | none => (none, none, String.mk base)

/-- Spec-side predicate (independent of the matcher): a character list of the
exact shape `\d{4}-\d{2}-\d{2}_\d{2}-\d{2}-\d{2}`. -/
def isTimestampShape (s : List Char) : Bool :=
  match s with
  | [a1, a2, a3, a4, '-', b1, b2, '-', b3, b4, '_', d1, d2, '-', e1, e2, '-', g1, g2] =>
    [a1, a2, a3, a4, b1, b2, b3, b4, d1, d2, e1, e2, g1, g2].all pyIsDigit
  | _ => false

/-- Spec-side predicate: an uppercase hexadecimal digit. -/
def isUpperHexDigit (c : Char) : Bool :=
  ('0' ≤ c && c ≤ '9') || ('A' ≤ c && c ≤ 'F')

/-! ## Configuration, sample positions and the fingerprint -/

def GRID : Nat := 4
def VIDEO_WIDTH : Nat := 1920
def VIDEO_HEIGHT : Nat := 1080

/-- Sample coordinates (source lines 33–40): `j` is the outer index, `i` the
inner one.  Python computes `int((i + 1) * VIDEO_WIDTH / (GRID + 1))` with
float division; at these constants the quotient is exact, so `int(...)` equals
natural floor division. -/
def POSITIONS : List (Nat × Nat) :=
  ((List.range GRID).map (fun j =>
    (List.range GRID).map (fun i =>
      ((i + 1) * VIDEO_WIDTH / (GRID + 1), (j + 1) * VIDEO_HEIGHT / (GRID + 1))))).flatten

/-- The RGB-converted first frame: `h, w, _ = frame_rgb.shape` and
`frame_rgb[y, x]` yields a `uint8` triple `(r, g, b)`. -/
structure Frame where
  h : Nat
  w : Nat
  px : Nat → Nat → Fin 256 × Fin 256 × Fin 256

/-- Uppercase hexadecimal digit. -/
def hexDigitChar (n : Nat) : Char :=
  if n < 10 then Char.ofNat ('0'.toNat + n) else Char.ofNat ('A'.toNat + (n - 10))

/-- Python `f"{v:02X}"` for `v < 256`: exactly two uppercase hex digits. -/
def hex2 (n : Fin 256) : String :=
  String.mk [hexDigitChar (n.val / 16), hexDigitChar (n.val % 16)]

/-- The `f"#{r:02X}{g:02X}{b:02X}"` color string, channel order R, G, B. -/
def colorHex (rgb : Fin 256 × Fin 256 × Fin 256) : String :=
  "#" ++ hex2 rgb.1 ++ hex2 rgb.2.1 ++ hex2 rgb.2.2

/-- One sample (source lines 169–174): the color at `frame_rgb[y, x]` when
`0 <= x < w and 0 <= y < h` (the lower bounds are automatic for `Nat`),
`"#000000"` otherwise. -/
def samplePoint (f : Frame) (p : Nat × Nat) : String :=
  if p.1 < f.w && p.2 < f.h then colorHex (f.px p.2 p.1) else "#000000"

/-- The list `colors` of source lines 168–174. -/
def videoColors (f : Frame) : List String := POSITIONS.map (samplePoint f)

/-- `key = ",".join(colors)` (source line 175). -/
def videoKey (f : Frame) : String := String.intercalate "," (videoColors f)

/-! ## The record store -/

/-- A persisted `(filename, fingerprint)` pair. -/
abbrev Record := String × String

/-- Python text-file line iteration: split after every `'\n'`, keeping the
`'\n'`; no empty final line. -/
def pythonLinesAux (acc : List Char) : List Char → List (List Char)
  | [] => if acc.isEmpty then [] else [acc.reverse]
  | c :: rest =>
    if c = '\n' then (acc.reverse ++ ['\n']) :: pythonLinesAux [] rest
    else pythonLinesAux (c :: acc) rest

def pythonLines (s : List Char) : List (List Char) := pythonLinesAux [] s

/-- `line.split('|', 1)` followed by unpacking into two variables: `some`
splits at the first `'|'`; `none` models the `ValueError` raised when the
separator is missing. -/
def splitBar1 : List Char → Option (List Char × List Char)
  | [] => none
  | c :: rest =>
    if c = '|' then some ([], rest)
    else (splitBar1 rest).map (fun p => (c :: p.1, p.2))

/-- The load loop of source lines 123–126: for each line,
`rec_fn, rec_key = line.strip().split('|', 1)`; the first malformed line
aborts the whole load (`ValueError`). -/
def parseLines : List (List Char) → Option (List Record)
  | [] => some []
  | l :: rest =>
    match splitBar1 (pyStripChars l) with
    | none => none
    | some (a, b) => (parseLines rest).map (fun rs => (String.mk a, String.mk b) :: rs)

/-- Loading the store from the persisted file content. -/
def loadRecords (content : String) : Option (List Record) :=
  parseLines (pythonLines content.data)

/-- The append of source lines 184–185: `f.write(f"{fn}|{key}\n")` in append
mode. -/
def appendRecord (store : String) (fn key : String) : String :=
  store ++ fn ++ "|" ++ key ++ "\n"

/-! ## Duplicate matching and the engine -/

/-- The reason a candidate is rejected.  `duplicateColors` carries the
filename interpolated into the "Duplicate Colors" alert (source line 180). -/
inductive Reason where
  | exactFilename (rec : Record)
  | sameTimestamp (rec : Record)
  | sameCode (rec : Record)
  | sameTitle (rec : Record)
  | duplicateColors (reportedFn : String)
  deriving DecidableEq, Repr

/-- The outcome of one `process_video` run.  `loadFailed` models the uncaught
`ValueError` thrown while splitting a malformed store line. -/
inductive Outcome where
  | accepted
  | rejected (r : Reason)
  | fingerprintFailed
  | loadFailed
  deriving DecidableEq, Repr

/-- Python truthiness of the optional parsed fields. -/
def optTruthy : Option String → Bool
  | none => false
  | some s => !s.isEmpty

/-- The ordered filename checks of source lines 128–156 (steps 1–4): exact
filename, then timestamp, then numeric code, then title; each inner loop stops
at its first hit; the timestamp/code/title stages are guarded by the
truthiness of the corresponding parsed field of the candidate. -/
def checkDuplicate (fn : String) (parsed : Option String × Option String × String)
    (records : List Record) : Option Reason :=
  match records.find? (fun r => r.1 == fn) with
  | some r => some (Reason.exactFilename r)
  | none =>
    match (if optTruthy parsed.1 then
             records.find? (fun r => (parse_name_parts r.1).1 == parsed.1)
           else none) with
    | some r => some (Reason.sameTimestamp r)
    | none =>
      match (if optTruthy parsed.2.1 then
               records.find? (fun r => (parse_name_parts r.1).2.1 == parsed.2.1)
             else none) with
      | some r => some (Reason.sameCode r)
      | none =>
        match (if !parsed.2.2.isEmpty then
                 records.find? (fun r =>
                   let tr := (parse_name_parts r.1).2.2
                   !tr.isEmpty && pyLower tr == pyLower parsed.2.2)
               else none) with
        | some r => some (Reason.sameTitle r)
        | none => none

/-- `process_video` (source lines 115–187) as a function from the persisted
store content, the submitted path and the decode result of the first frame to
an outcome and the new store content.

In the "Duplicate Colors" branch the alert interpolates the Python variable
`rec_fn`, which the loop at line 178 does **not** rebind (it unpacks
`_, rec_key`); at that point `rec_fn` holds the filename of the **last**
loaded record, because each of the earlier loops (lines 125, 129, 136, 144,
152) that ran iterated over all of `records` without returning. -/
def process_video (store : String) (path : String) (decoded : Option Frame) :
    Outcome × String :=
  let fn := basename path
  let parsed := parse_name_parts fn
  match loadRecords store with
  | none => (Outcome.loadFailed, store)
  | some records =>
    match checkDuplicate fn parsed records with
    | some r => (Outcome.rejected r, store)
    | none =>
      match decoded with
      | none => (Outcome.fingerprintFailed, store)
      | some frame =>
        let key := videoKey frame
        if records.any (fun r => r.2 == key) then
          (Outcome.rejected (Reason.duplicateColors (records.getLastD ("", "")).1), store)
        else
          (Outcome.accepted, appendRecord store fn key)

/-! ## Helper lemmas -/

/-- A concrete decodable frame of zero size: every sample point is out of
bounds. -/
def frame0 : Frame := ⟨0, 0, fun _ _ => (0, 0, 0)⟩

/-- A concrete decodable all-white frame larger than the reference
resolution: every sample point is in bounds. -/
def frame1 : Frame := ⟨2000, 2000, fun _ _ => (255, 255, 255)⟩

theorem parseLines_eq_none (L : List (List Char))
    (h : ∃ l ∈ L, splitBar1 (pyStripChars l) = none) : parseLines L = none := by
  induction L with
  | nil => rcases h with ⟨l, hl, _⟩; cases hl
  | cons a L ih =>
    rcases h with ⟨l, hl, hbad⟩
    rcases List.mem_cons.mp hl with rfl | hl
    · simp [parseLines, hbad]
    · unfold parseLines
      rcases hs : splitBar1 (pyStripChars a) with _ | p
      · rfl
      · simp [ih ⟨l, hl, hbad⟩]

theorem dropWhile_eq_self_of_head {p : Char → Bool} {l : List Char}
    (h : ∀ a, l.head? = some a → p a = false) : l.dropWhile p = l := by
  cases l with
  | nil => rfl
  | cons a l =>
    rw [List.dropWhile_cons, if_neg]
    simp [h a rfl]

theorem dropWhile_append_stop {p : Char → Bool} {l1 l2 : List Char}
    (h : ∀ a, l2.head? = some a → p a = false) :
    (l1 ++ l2).dropWhile p = l1.dropWhile p ++ l2 := by
  rw [List.dropWhile_append]
  split
  · rename_i he
    rw [List.isEmpty_iff] at he
    rw [he, List.nil_append, dropWhile_eq_self_of_head h]
  · rfl

theorem stripRight_newline {X : List Char}
    (h : ∀ a, X.getLast? = some a → pyIsSpace a = false) :
    ((X ++ ['\n']).reverse.dropWhile pyIsSpace).reverse = X := by
  rw [List.reverse_append, List.reverse_singleton, List.singleton_append,
    List.dropWhile_cons, if_pos (by decide)]
  rw [dropWhile_eq_self_of_head fun a ha => h a (by rwa [List.head?_reverse] at ha)]
  exact List.reverse_reverse X

theorem pyStripChars_line (fn key : List Char)
    (hkeyl : ∀ a, key.getLast? = some a → pyIsSpace a = false) :
    pyStripChars (fn ++ '|' :: (key ++ ['\n'])) =
      fn.dropWhile pyIsSpace ++ '|' :: key := by
  unfold pyStripChars
  rw [@dropWhile_append_stop pyIsSpace fn ('|' :: (key ++ ['\n']))
      (fun a ha => by cases ha; decide)]
  have h2 : fn.dropWhile pyIsSpace ++ '|' :: (key ++ ['\n'])
      = (fn.dropWhile pyIsSpace ++ '|' :: key) ++ ['\n'] := by simp
  rw [h2, stripRight_newline]
  intro a ha
  rw [List.getLast?_append] at ha
  cases key with
  | nil =>
    simp at ha
    subst ha
    decide
  | cons b key' =>
    rw [show (('|' :: (b :: key')).getLast? = (b :: key').getLast?) from rfl] at ha
    rw [Option.or_of_isSome (by simp [List.getLast?_eq_getLast])] at ha
    exact hkeyl a ha

theorem splitBar1_boundary (fn key : List Char) (h : ∀ c ∈ fn, c ≠ '|') :
    splitBar1 (fn ++ '|' :: key) = some (fn, key) := by
  induction fn with
  | nil => simp [splitBar1]
  | cons a l ih =>
    have ha : a ≠ '|' := h a (List.mem_cons_self a l)
    simp [splitBar1, ha, ih fun c hc => h c (List.mem_cons_of_mem _ hc)]

theorem pythonLinesAux_cons_nl (acc rest : List Char) :
    pythonLinesAux acc ('\n' :: rest) =
      (acc.reverse ++ ['\n']) :: pythonLinesAux [] rest := rfl

theorem pythonLinesAux_cons {c : Char} (hc : c ≠ '\n') (acc rest : List Char) :
    pythonLinesAux acc (c :: rest) = pythonLinesAux (c :: acc) rest := by
  conv_lhs => unfold pythonLinesAux
  rw [if_neg hc]

theorem pythonLinesAux_newline_split (a : List Char) :
    ∀ acc b, pythonLinesAux acc (a ++ '\n' :: b) =
      pythonLinesAux acc (a ++ ['\n']) ++ pythonLines b := by
  induction a with
  | nil =>
    intro acc b
    rw [List.nil_append, List.nil_append, pythonLinesAux_cons_nl, pythonLinesAux_cons_nl]
    simp [pythonLines, pythonLinesAux]
  | cons c a ih =>
    intro acc b
    rw [List.cons_append, List.cons_append]
    by_cases hc : c = '\n'
    · subst hc
      rw [pythonLinesAux_cons_nl, pythonLinesAux_cons_nl, ih, List.cons_append]
    · rw [pythonLinesAux_cons hc, pythonLinesAux_cons hc, ih]

theorem pythonLinesAux_single (l : List Char) :
    ∀ acc, (∀ c ∈ l, c ≠ '\n') →
      pythonLinesAux acc (l ++ ['\n']) = [acc.reverse ++ l ++ ['\n']] := by
  induction l with
  | nil =>
    intro acc h
    rw [List.nil_append, pythonLinesAux_cons_nl]
    simp [pythonLinesAux]
  | cons a l ih =>
    intro acc h
    have ha : a ≠ '\n' := h a (List.mem_cons_self a l)
    rw [List.cons_append, pythonLinesAux_cons ha,
      ih (a :: acc) fun c hc => h c (List.mem_cons_of_mem _ hc)]
    simp

theorem pythonLines_append_of_last_nl {sd : List Char}
    (h : sd.getLast? = some '\n') (b : List Char) :
    pythonLines (sd ++ b) = pythonLines sd ++ pythonLines b := by
  obtain ⟨d, rfl⟩ := List.getLast?_eq_some_iff.mp h
  unfold pythonLines
  rw [List.append_assoc, List.singleton_append]
  exact pythonLinesAux_newline_split d [] b

theorem parseLines_cons (l : List Char) (L : List (List Char)) :
    parseLines (l :: L) =
      match splitBar1 (pyStripChars l) with
      | none => none
      | some (a, b) => (parseLines L).map fun rs => (String.mk a, String.mk b) :: rs := rfl

theorem parseLines_append {L1 L2 : List (List Char)} {r1 : List Record}
    (h : parseLines L1 = some r1) :
    parseLines (L1 ++ L2) = (parseLines L2).map fun r2 => r1 ++ r2 := by
  induction L1 generalizing r1 with
  | nil =>
    rw [show parseLines [] = some [] from rfl, Option.some_inj] at h
    subst h
    simp [List.nil_append]
  | cons l L ih =>
    rw [List.cons_append]
    rw [parseLines_cons] at h ⊢
    rcases hs : splitBar1 (pyStripChars l) with _ | p <;> rw [hs] at h <;>
      dsimp only at h ⊢
    · cases h
    · obtain ⟨rs, hrs, hr1⟩ := Option.map_eq_some'.mp h
      subst hr1
      rw [ih hrs]
      rcases parseLines L2 with _ | v <;> rfl

/-- Appending one well-formed record line to a well-terminated loadable store
loads back as the old records plus the new pair, with the filename stripped of
leading whitespace (the `line.strip()` of the load loop). -/
theorem loadRecords_append {store fn key : String} {recs : List Record}
    (hstore : store = "" ∨ store.data.getLast? = some '\n')
    (hload : loadRecords store = some recs)
    (hfn : ∀ ch ∈ fn.data, ch ≠ '|' ∧ ch ≠ '\n')
    (hkeynl : ∀ ch ∈ key.data, ch ≠ '\n')
    (hkeyl : ∀ ch, key.data.getLast? = some ch → pyIsSpace ch = false) :
    loadRecords (appendRecord store fn key) =
      some (recs ++ [(String.mk (fn.data.dropWhile pyIsSpace), key)]) := by
  have hdata : (appendRecord store fn key).data
      = store.data ++ (fn.data ++ '|' :: (key.data ++ ['\n'])) := by
    simp [appendRecord]
  have hnl : ∀ c ∈ fn.data ++ '|' :: key.data, c ≠ '\n' := by
    intro c hc
    rcases List.mem_append.mp hc with hc | hc
    · exact (hfn c hc).2
    · rcases List.mem_cons.mp hc with rfl | hc
      · decide
      · exact hkeynl c hc
  have hline : pythonLines (fn.data ++ '|' :: (key.data ++ ['\n']))
      = [fn.data ++ '|' :: (key.data ++ ['\n'])] := by
    unfold pythonLines
    have he : fn.data ++ '|' :: (key.data ++ ['\n'])
        = (fn.data ++ '|' :: key.data) ++ ['\n'] := by simp
    rw [he, pythonLinesAux_single _ [] hnl]
    simp
  have hone : parseLines [fn.data ++ '|' :: (key.data ++ ['\n'])]
      = some [(String.mk (fn.data.dropWhile pyIsSpace), key)] := by
    unfold parseLines
    rw [pyStripChars_line _ _ hkeyl,
      splitBar1_boundary _ _
        (fun c hc => (hfn c ((List.dropWhile_sublist pyIsSpace).mem hc)).1)]
    rfl
  unfold loadRecords
  rw [hdata]
  rcases hstore with hemp | hlast
  · rw [hemp] at hload ⊢
    rw [show ("" : String).data = [] from rfl, List.nil_append, hline]
    rw [show loadRecords "" = some [] from rfl, Option.some_inj] at hload
    subst hload
    rw [hone]
    rfl
  · rw [pythonLines_append_of_last_nl hlast, hline,
      @parseLines_append (pythonLines store.data)
        [fn.data ++ '|' :: (key.data ++ ['\n'])] recs hload, hone]
    rfl

theorem hexDigitChar_hex {n : Nat} (h : n < 16) : isUpperHexDigit (hexDigitChar n) = true := by
  interval_cases n <;> decide

theorem colorHex_data (rgb : Fin 256 × Fin 256 × Fin 256) :
    (colorHex rgb).data =
      ['#', hexDigitChar (rgb.1.val / 16), hexDigitChar (rgb.1.val % 16),
       hexDigitChar (rgb.2.1.val / 16), hexDigitChar (rgb.2.1.val % 16),
       hexDigitChar (rgb.2.2.val / 16), hexDigitChar (rgb.2.2.val % 16)] := rfl

theorem samplePoint_token (f : Frame) (p : Nat × Nat) :
    (samplePoint f p).length = 7 ∧ (samplePoint f p).data.head? = some '#' ∧
      ((samplePoint f p).data.drop 1).all isUpperHexDigit = true := by
  unfold samplePoint
  split
  · have h1 := (f.px p.2 p.1).1.isLt
    have h2 := (f.px p.2 p.1).2.1.isLt
    have h3 := (f.px p.2 p.1).2.2.isLt
    refine ⟨?_, ?_, ?_⟩
    · show (colorHex _).data.length = 7
      rw [colorHex_data]
      rfl
    · rw [colorHex_data]
      rfl
    · rw [colorHex_data]
      simp only [List.drop, List.all_cons, List.all_nil, Bool.and_eq_true, Bool.and_true]
      refine ⟨hexDigitChar_hex (by omega), hexDigitChar_hex (by omega),
        hexDigitChar_hex (by omega), hexDigitChar_hex (by omega),
        hexDigitChar_hex (by omega), hexDigitChar_hex (by omega)⟩
  · exact ⟨rfl, rfl, by decide⟩

theorem samplePoint_chars (f : Frame) (p : Nat × Nat) :
    ∀ ch ∈ (samplePoint f p).data, ch = '#' ∨ isUpperHexDigit ch = true := by
  intro ch hc
  obtain ⟨-, hhd, hall⟩ := samplePoint_token f p
  rcases hd : (samplePoint f p).data with _ | ⟨a, rest⟩
  · rw [hd] at hc
    cases hc
  · rw [hd] at hc hhd hall
    rcases List.mem_cons.mp hc with rfl | hc
    · exact Or.inl (Option.some_inj.mp hhd)
    · right
      exact List.all_eq_true.mp hall ch hc

theorem intercalate_go_chars {P : Char → Prop} {sep : String} {l : List String}
    (hsep : ∀ ch ∈ sep.data, P ch) (hl : ∀ t ∈ l, ∀ ch ∈ t.data, P ch) :
    ∀ acc, (∀ ch ∈ acc.data, P ch) →
      ∀ ch ∈ (String.intercalate.go acc sep l).data, P ch := by
  induction l with
  | nil => exact fun acc hacc => hacc
  | cons a as ih =>
    intro acc hacc
    rw [show String.intercalate.go acc sep (a :: as)
        = String.intercalate.go (acc ++ sep ++ a) sep as from rfl]
    refine ih (fun t ht => hl t (List.mem_cons_of_mem _ ht)) _ ?_
    intro ch hc
    rw [String.data_append, String.data_append] at hc
    rcases List.mem_append.mp hc with hc | hc
    · rcases List.mem_append.mp hc with hc | hc
      · exact hacc ch hc
      · exact hsep ch hc
    · exact hl a (List.mem_cons_self a as) ch hc

theorem intercalate_chars {P : Char → Prop} {sep : String} {l : List String}
    (hsep : ∀ ch ∈ sep.data, P ch) (hl : ∀ t ∈ l, ∀ ch ∈ t.data, P ch) :
    ∀ ch ∈ (String.intercalate sep l).data, P ch := by
  cases l with
  | nil =>
    intro ch hc
    cases hc
  | cons a as =>
    exact intercalate_go_chars hsep (fun t ht => hl t (List.mem_cons_of_mem _ ht)) a
      (hl a (List.mem_cons_self a as))

theorem videoKey_chars (f : Frame) :
    ∀ ch ∈ (videoKey f).data, ch = '#' ∨ ch = ',' ∨ isUpperHexDigit ch = true := by
  apply intercalate_chars
  · intro ch hc
    rcases List.mem_singleton.mp hc with rfl
    exact Or.inr (Or.inl rfl)
  · intro t ht ch hc
    obtain ⟨p, -, rfl⟩ := List.mem_map.mp ht
    rcases samplePoint_chars f p ch hc with h | h
    · exact Or.inl h
    · exact Or.inr (Or.inr h)

theorem videoKey_clean (f : Frame) :
    ∀ ch ∈ (videoKey f).data,
      ch ≠ '\n' ∧ ch ≠ '\r' ∧ ch ≠ '|' ∧ pyIsSpace ch = false := by
  intro ch hc
  rcases videoKey_chars f ch hc with rfl | rfl | h
  · exact ⟨by decide, by decide, by decide, by decide⟩
  · exact ⟨by decide, by decide, by decide, by decide⟩
  · refine ⟨?_, ?_, ?_, ?_⟩
    · intro hch
      subst hch
      exact absurd h (by decide)
    · intro hch
      subst hch
      exact absurd h (by decide)
    · intro hch
      subst hch
      exact absurd h (by decide)
    · rcases hs : pyIsSpace ch
      · rfl
      · exfalso
        simp only [pyIsSpace, Bool.or_eq_true, decide_eq_true_eq] at hs
        rcases hs with ((((rfl | rfl) | rfl) | rfl) | rfl) | rfl <;>
          exact absurd h (by decide)

theorem videoKey_getLast_not_space (f : Frame) :
    ∀ ch, (videoKey f).data.getLast? = some ch → pyIsSpace ch = false :=
  fun ch hch => (videoKey_clean f ch (List.mem_of_getLast?_eq_some hch)).2.2.2

theorem checkDuplicate_none_exact {fn : String}
    {parsed : Option String × Option String × String} {records : List Record}
    (h : checkDuplicate fn parsed records = none) :
    records.find? (fun r => r.1 == fn) = none := by
  unfold checkDuplicate at h
  rcases hf : records.find? (fun r => r.1 == fn) with _ | r
  · exact hf
  · rw [hf] at h
    cases h

theorem process_video_accepted_inv {store path : String} {decoded : Option Frame}
    {store' : String}
    (h : process_video store path decoded = (Outcome.accepted, store')) :
    ∃ recs frame, loadRecords store = some recs ∧
      checkDuplicate (basename path) (parse_name_parts (basename path)) recs = none ∧
      decoded = some frame ∧
      (recs.any fun r => r.2 == videoKey frame) = false ∧
      store' = appendRecord store (basename path) (videoKey frame) := by
  simp only [process_video] at h
  cases hl : loadRecords store with
  | none =>
    rw [hl] at h
    cases h
  | some records =>
    rw [hl] at h
    dsimp only at h
    cases hc : checkDuplicate (basename path) (parse_name_parts (basename path)) records with
    | some r =>
      rw [hc] at h
      cases h
    | none =>
      rw [hc] at h
      dsimp only at h
      cases decoded with
      | none => cases h
      | some frame =>
        dsimp only at h
        by_cases ha : (records.any fun r => r.2 == videoKey frame) = true
        · rw [if_pos ha] at h
          cases h
        · rw [if_neg ha] at h
          obtain ⟨-, h2⟩ := Prod.mk.injEq .. |>.mp h
          exact ⟨records, frame, rfl, hc, rfl, Bool.eq_false_iff.mpr ha, h2.symm⟩

theorem matchTimestamp_inv {s g r : List Char} (h : matchTimestamp s = some (g, r)) :
    isTimestampShape g = true ∧ s = g ++ r := by
  unfold matchTimestamp at h
  split at h
  · rename_i c1 c2 c3 c4 c5 c6 c7 c8 c9 c10 c11 c12 c13 c14 rest
    split at h
    · rename_i hd
      rw [Option.some_inj, Prod.mk.injEq] at h
      obtain ⟨hg, hr⟩ := h
      subst hg
      subst hr
      exact ⟨hd, rfl⟩
    · cases h
  · cases h

theorem nameMatch_inv {s d c t : List Char} (h : nameMatch s = some (d, c, t)) :
    ∃ r1, matchTimestamp s = some (d, r1) ∧
      r1.takeWhile pyIsSpace ≠ [] ∧
      c = (r1.dropWhile pyIsSpace).takeWhile pyIsDigit ∧ c ≠ [] ∧
      matchTail ((r1.dropWhile pyIsSpace).dropWhile pyIsDigit) = some t := by
  unfold nameMatch at h
  split at h
  · cases h
  · rename_i g1 r1 heq
    dsimp only at h
    split at h
    · cases h
    · rename_i hw
      split at h
      · cases h
      · rename_i hd
        split at h
        · rename_i g3 ht
          rw [Option.some_inj, Prod.mk.injEq, Prod.mk.injEq] at h
          obtain ⟨h1, h2, h3⟩ := h
          subst h1
          subst h2
          subst h3
          refine ⟨r1, heq, ?_, rfl, ?_, ht⟩
          · simpa [List.isEmpty_iff] using hw
          · simpa [List.isEmpty_iff] using hd
        · cases h

/-! ## Claim theorems -/

/-- C3: parsing is total and deterministic (it is a function).  When the
extension-stripped base matches `NAME_PATTERN`, the timestamp and code fields
are present as parsed — the timestamp group really has the strict
`\d{4}-\d{2}-\d{2}_\d{2}-\d{2}-\d{2}` shape, the code group is a nonempty
digit string following it after nonempty whitespace — and the title is the
trimmed remainder group.  When the base does not match, the timestamp and
code are absent and the title is the whole base name, untrimmed. -/
theorem c3_parse_total_deterministic (filename : String) :
    (∀ d c t, nameMatch (splitextRoot filename.data) = some (d, c, t) →
        parse_name_parts filename =
          (some (String.mk d), some (String.mk c), String.mk (pyStripChars t)) ∧
        isTimestampShape d = true ∧
        c ≠ [] ∧ c.all pyIsDigit = true ∧
        ∃ w rest, splitextRoot filename.data = d ++ w ++ c ++ rest ∧
          w ≠ [] ∧ w.all pyIsSpace = true) ∧
    (nameMatch (splitextRoot filename.data) = none →
        parse_name_parts filename = (none, none, String.mk (splitextRoot filename.data))) := by
  constructor
  · intro d c t h
    obtain ⟨r1, hts, hw, hc, hcne, -⟩ := nameMatch_inv h
    obtain ⟨hshape, hsplit⟩ := matchTimestamp_inv hts
    refine ⟨?_, hshape, hcne, ?_, ?_⟩
    · unfold parse_name_parts
      dsimp only
      rw [h]
    · rw [hc]
      exact List.all_eq_true.mpr fun x hx => List.mem_takeWhile_imp hx
    · refine ⟨r1.takeWhile pyIsSpace,
        ((r1.dropWhile pyIsSpace).dropWhile pyIsDigit), ?_, hw, ?_⟩
      · rw [hsplit, hc, List.append_assoc, List.append_assoc,
          List.takeWhile_append_dropWhile, List.takeWhile_append_dropWhile]
      · exact List.all_eq_true.mpr fun x hx => List.mem_takeWhile_imp hx
  · intro h
    unfold parse_name_parts
    dsimp only
    rw [h]

/-- Witness for C3 at a matching and at a non-matching filename. -/
theorem c3_witness :
    (parse_name_parts "2025-05-07_08-22-55 1132 (ChanX) My Show.mp4" =
        (some "2025-05-07_08-22-55", some "1132", "My Show") ∧
      isTimestampShape "2025-05-07_08-22-55".data = true) ∧
    parse_name_parts "My Show.mp4" = (none, none, "My Show") := by
  have h1 := (c3_parse_total_deterministic "2025-05-07_08-22-55 1132 (ChanX) My Show.mp4").1
    "2025-05-07_08-22-55".data "1132".data "My Show".data (by decide)
  have h2 := (c3_parse_total_deterministic "My Show.mp4").2 (by decide)
  refine ⟨⟨?_, h1.2.1⟩, ?_⟩
  · rw [h1.1]
    decide
  · rw [h2]
    decide

/-- C4: for every decodable frame the fingerprint is the comma-join of
exactly `GRID × GRID` color strings, and the `k`-th entry samples the pixel
`(⌊(i+1)·VIDEO_WIDTH/(GRID+1)⌋, ⌊(j+1)·VIDEO_HEIGHT/(GRID+1)⌋)` for
`i = k % GRID`, `j = k / GRID` (row-major, `j` outer), formatted as
`#RRGGBB` with channel order R, G, B. -/
theorem c4_fingerprint_grid (f : Frame) :
    (videoColors f).length = GRID * GRID ∧
    videoKey f = String.intercalate "," (videoColors f) ∧
    ∀ k, k < GRID * GRID →
      (videoColors f).get? k =
        some (if (k % GRID + 1) * VIDEO_WIDTH / (GRID + 1) < f.w &&
                 (k / GRID + 1) * VIDEO_HEIGHT / (GRID + 1) < f.h then
                "#" ++ hex2 (f.px ((k / GRID + 1) * VIDEO_HEIGHT / (GRID + 1))
                              ((k % GRID + 1) * VIDEO_WIDTH / (GRID + 1))).1 ++
                  hex2 (f.px ((k / GRID + 1) * VIDEO_HEIGHT / (GRID + 1))
                         ((k % GRID + 1) * VIDEO_WIDTH / (GRID + 1))).2.1 ++
                  hex2 (f.px ((k / GRID + 1) * VIDEO_HEIGHT / (GRID + 1))
                         ((k % GRID + 1) * VIDEO_WIDTH / (GRID + 1))).2.2
              else "#000000") := by
  refine ⟨by simp [videoColors]; decide, rfl, ?_⟩
  intro k hk
  have hk' : k < 16 := hk
  interval_cases k <;> rfl

/-- Witness for C4 at the all-white oversized frame and `k = 5`. -/
theorem c4_witness :
    (videoColors frame1).get? 5 = some "#FFFFFF" ∧
    (videoColors frame1).length = GRID * GRID := by
  refine ⟨?_, (c4_fingerprint_grid frame1).1⟩
  have h := (c4_fingerprint_grid frame1).2.2 5 (by decide)
  simpa using h

/-- C7: a sample point outside the decoded frame's bounds contributes
`"#000000"` instead of failing, and the fingerprint still has exactly
`GRID × GRID` entries for every frame whatever its dimensions. -/
theorem c7_out_of_bounds_black (f : Frame) :
    (videoColors f).length = GRID * GRID ∧
    ∀ k x y, POSITIONS.get? k = some (x, y) → ¬(x < f.w ∧ y < f.h) →
      (videoColors f).get? k = some "#000000" := by
  refine ⟨by simp [videoColors]; decide, ?_⟩
  intro k x y hk hxy
  have hmap : (videoColors f).get? k = (POSITIONS.get? k).map (samplePoint f) :=
    List.get?_map _ _ _
  rw [hmap, hk]
  have hcond : (x < f.w && y < f.h) = false := by
    rcases Nat.lt_or_ge x f.w with hx | hx
    · rcases Nat.lt_or_ge y f.h with hy | hy
      · exact absurd ⟨hx, hy⟩ hxy
      · simp [Nat.not_lt_of_ge hy]
    · simp [Nat.not_lt_of_ge hx]
  simp [samplePoint, hcond]

/-- Witness for C7: in the zero-size frame the first sample point (384, 216)
is out of bounds and contributes `"#000000"`. -/
theorem c7_witness : (videoColors frame0).get? 0 = some "#000000" :=
  (c7_out_of_bounds_black frame0).2 0 384 216 (by decide) (by decide)

/-- C6: if the first frame cannot be decoded, the outcome is
`fingerprintFailed` and the store is untouched; more generally `process_video`
returns the store unchanged for every outcome other than `accepted`. -/
theorem c6_non_accept_leaves_store_unchanged :
    (∀ store path decoded, (process_video store path decoded).1 ≠ Outcome.accepted →
        (process_video store path decoded).2 = store) ∧
    (∀ store path recs, loadRecords store = some recs →
        checkDuplicate (basename path) (parse_name_parts (basename path)) recs = none →
        process_video store path none = (Outcome.fingerprintFailed, store)) := by
  constructor
  · intro store path decoded h
    simp only [process_video] at h ⊢
    rcases hl : loadRecords store with _ | records
    · rfl
    · rw [hl] at h
      dsimp only at h ⊢
      rcases hc : checkDuplicate (basename path) (parse_name_parts (basename path)) records
        with _ | r
      · rw [hc] at h
        dsimp only at h ⊢
        rcases decoded with _ | frame
        · rfl
        · dsimp only at h ⊢
          by_cases ha : (records.any fun r => r.2 == videoKey frame) = true
          · rw [if_pos ha]
          · rw [if_neg ha] at h
            exact absurd rfl h
      · rfl
  · intro store path recs hl hc
    simp only [process_video]
    rw [hl]
    dsimp only
    rw [hc]

/-- Witness for C6 at a concrete store, path and failed decode. -/
theorem c6_witness :
    (process_video "x.mp4|K\n" "v.mp4" none).2 = "x.mp4|K\n" ∧
    process_video "x.mp4|K\n" "v.mp4" none = (Outcome.fingerprintFailed, "x.mp4|K\n") :=
  ⟨c6_non_accept_leaves_store_unchanged.1 "x.mp4|K\n" "v.mp4" none (by decide),
   c6_non_accept_leaves_store_unchanged.2 "x.mp4|K\n" "v.mp4" [("x.mp4", "K")]
     (by decide) (by decide)⟩

/-- C1: the filename-based checks run in the order exact filename, timestamp,
code, title, and short-circuit on the first hit: an exact-filename hit yields
`exactFilename` no matter what else collides; with no filename hit, a
timestamp hit yields `sameTimestamp` (preempting code and title); with no
filename or timestamp hit, a code hit yields `sameCode` (preempting title). -/
theorem c1_ordered_short_circuit (fn : String)
    (parsed : Option String × Option String × String) (records : List Record) :
    ((∃ r ∈ records, r.1 = fn) →
        ∃ r ∈ records, r.1 = fn ∧
          checkDuplicate fn parsed records = some (Reason.exactFilename r)) ∧
    ((∀ r ∈ records, r.1 ≠ fn) → optTruthy parsed.1 = true →
        (∃ r ∈ records, (parse_name_parts r.1).1 = parsed.1) →
        ∃ r ∈ records,
          checkDuplicate fn parsed records = some (Reason.sameTimestamp r)) ∧
    ((∀ r ∈ records, r.1 ≠ fn) →
        (optTruthy parsed.1 = false ∨ ∀ r ∈ records, (parse_name_parts r.1).1 ≠ parsed.1) →
        optTruthy parsed.2.1 = true →
        (∃ r ∈ records, (parse_name_parts r.1).2.1 = parsed.2.1) →
        ∃ r ∈ records,
          checkDuplicate fn parsed records = some (Reason.sameCode r)) := by
  refine ⟨?_, ?_, ?_⟩
  · intro h
    have hs : (records.find? (fun r => r.1 == fn)).isSome := by
      rw [List.find?_isSome]
      obtain ⟨r, hr, he⟩ := h
      exact ⟨r, hr, by simp [he]⟩
    obtain ⟨r, hr⟩ := Option.isSome_iff_exists.mp hs
    refine ⟨r, List.mem_of_find?_eq_some hr, by simpa using List.find?_some hr, ?_⟩
    unfold checkDuplicate
    rw [hr]
  · intro hno htruthy hex
    have h1 : records.find? (fun r => r.1 == fn) = none :=
      List.find?_eq_none.mpr (fun r hr => by simpa using hno r hr)
    have hs : (records.find? (fun r => (parse_name_parts r.1).1 == parsed.1)).isSome := by
      rw [List.find?_isSome]
      obtain ⟨r, hr, he⟩ := hex
      exact ⟨r, hr, by simp [he]⟩
    obtain ⟨r, hr⟩ := Option.isSome_iff_exists.mp hs
    refine ⟨r, List.mem_of_find?_eq_some hr, ?_⟩
    unfold checkDuplicate
    rw [h1, if_pos htruthy, hr]
  · intro hno hts htruthy hex
    have h1 : records.find? (fun r => r.1 == fn) = none :=
      List.find?_eq_none.mpr (fun r hr => by simpa using hno r hr)
    have h2 : (if optTruthy parsed.1 = true then
        records.find? (fun r => (parse_name_parts r.1).1 == parsed.1) else none) = none := by
      rcases hts with hf | hall
      · rw [if_neg]
        simp [hf]
      · by_cases ho : optTruthy parsed.1 = true
        · rw [if_pos ho]
          exact List.find?_eq_none.mpr (fun r hr => by simpa using hall r hr)
        · rw [if_neg ho]
    have hs : (records.find? (fun r => (parse_name_parts r.1).2.1 == parsed.2.1)).isSome := by
      rw [List.find?_isSome]
      obtain ⟨r, hr, he⟩ := hex
      exact ⟨r, hr, by simp [he]⟩
    obtain ⟨r, hr⟩ := Option.isSome_iff_exists.mp hs
    refine ⟨r, List.mem_of_find?_eq_some hr, ?_⟩
    unfold checkDuplicate
    rw [h1, h2, if_pos htruthy, hr]

/-- Witness for C1: a candidate whose filename and title both collide
(against different stored records) is reported as `exactFilename`; a
candidate whose timestamp and code both collide is reported as
`sameTimestamp`; a candidate whose code and title both collide (timestamp
absent from the store) is reported as `sameCode`. -/
theorem c1_witness :
    (∃ r ∈ [(("2025-05-07_08-22-55 1132 (ChanX) My Show.mp4", "K") : Record),
            ("My Show.avi", "L")],
        r.1 = "My Show.avi" ∧
        checkDuplicate "My Show.avi" (parse_name_parts "My Show.avi")
            [("2025-05-07_08-22-55 1132 (ChanX) My Show.mp4", "K"), ("My Show.avi", "L")] =
          some (Reason.exactFilename r)) ∧
    (∃ r ∈ [(("2025-05-07_08-22-55 1132 (ChanX) My Show.mp4", "K") : Record)],
        checkDuplicate "2025-05-07_08-22-55 1132 Other.mp4"
            (parse_name_parts "2025-05-07_08-22-55 1132 Other.mp4")
            [("2025-05-07_08-22-55 1132 (ChanX) My Show.mp4", "K")] =
          some (Reason.sameTimestamp r)) ∧
    (∃ r ∈ [(("2024-01-01_00-00-00 1132 My Show.mp4", "K") : Record)],
        checkDuplicate "2025-05-07_08-22-55 1132 my show.mp4"
            (parse_name_parts "2025-05-07_08-22-55 1132 my show.mp4")
            [("2024-01-01_00-00-00 1132 My Show.mp4", "K")] =
          some (Reason.sameCode r)) :=
  ⟨((c1_ordered_short_circuit "My Show.avi" (parse_name_parts "My Show.avi")
      [("2025-05-07_08-22-55 1132 (ChanX) My Show.mp4", "K"), ("My Show.avi", "L")]).1
      ⟨("My Show.avi", "L"), by decide, by decide⟩).imp
      (fun r hr => ⟨hr.1, hr.2.1, hr.2.2⟩),
   ((c1_ordered_short_circuit "2025-05-07_08-22-55 1132 Other.mp4"
      (parse_name_parts "2025-05-07_08-22-55 1132 Other.mp4")
      [("2025-05-07_08-22-55 1132 (ChanX) My Show.mp4", "K")]).2.1
      (by decide) (by decide) ⟨("2025-05-07_08-22-55 1132 (ChanX) My Show.mp4", "K"),
        by decide, by decide⟩),
   ((c1_ordered_short_circuit "2025-05-07_08-22-55 1132 my show.mp4"
      (parse_name_parts "2025-05-07_08-22-55 1132 my show.mp4")
      [("2024-01-01_00-00-00 1132 My Show.mp4", "K")]).2.2
      (by decide) (Or.inr (by decide)) (by decide)
      ⟨("2024-01-01_00-00-00 1132 My Show.mp4", "K"), by decide, by decide⟩)⟩

/-- C8: a persisted line without a `'|'` separator makes the whole load fail
(the `ValueError` of `split('|', 1)` unpacking propagates): no records are
produced and `process_video` aborts with the store unchanged. -/
theorem c8_malformed_line_fatal (content : String)
    (h : ∃ l ∈ pythonLines content.data, splitBar1 (pyStripChars l) = none) :
    loadRecords content = none ∧
    ∀ path decoded, process_video content path decoded = (Outcome.loadFailed, content) := by
  have hload : loadRecords content = none := parseLines_eq_none _ h
  refine ⟨hload, fun path decoded => ?_⟩
  unfold process_video
  rw [hload]

/-- Witness for C8 at a store containing one well-formed and one malformed
line. -/
theorem c8_witness :
    loadRecords "good|K\ngarbage\n" = none ∧
    process_video "good|K\ngarbage\n" "v.mp4" none =
      (Outcome.loadFailed, "good|K\ngarbage\n") := by
  have h := c8_malformed_line_fatal "good|K\ngarbage\n"
    ⟨"garbage\n".data, by decide, by decide⟩
  exact ⟨h.1, h.2 "v.mp4" none⟩

/-- C2: the fingerprint check itself matches the **first** stored record with
an equal fingerprint and fires only when some fingerprint is exactly equal,
but the record *identified* by the "Duplicate Colors" rejection is wrong: the
alert interpolates the stale loop variable `rec_fn`, which at that point holds
the **last** record's filename.  Here the first (and only) fingerprint match
is `("a.mp4", videoKey frame0)`, yet the rejection names `"b.mp4"`. -/
theorem c2_stale_loop_variable :
    loadRecords ("a.mp4|" ++ videoKey frame0 ++ "\nb.mp4|X\n") =
      some [("a.mp4", videoKey frame0), ("b.mp4", "X")] ∧
    List.find? (fun r => r.2 == videoKey frame0)
        [("a.mp4", videoKey frame0), ("b.mp4", "X")] =
      some ("a.mp4", videoKey frame0) ∧
    process_video ("a.mp4|" ++ videoKey frame0 ++ "\nb.mp4|X\n") "c.mp4" (some frame0) =
      (Outcome.rejected (Reason.duplicateColors "b.mp4"),
        "a.mp4|" ++ videoKey frame0 ++ "\nb.mp4|X\n") ∧
    "b.mp4" ≠ "a.mp4" := by
  refine ⟨by decide, by decide, by decide, by decide⟩

/-- C5 (claim as stated is false): the filename `" a"` contains no `'|'`, yet
storing the record `(" a", "K")` and reloading yields `("a", "K")` as the last
(and only) record: `line.strip()` removes the filename's leading space, so the
round-trip is not lossless for every `'|'`-free filename. -/
theorem c5_counterexample :
    (" a" : String).data.contains '|' = false ∧
    loadRecords (appendRecord "" " a" "K") = some [("a", "K")] ∧
    (("a", "K") : Record) ≠ ((" a", "K") : Record) := by
  refine ⟨by decide, by decide, by decide⟩

/-- C5 (amended): for a loadable store that is empty or newline-terminated,
and a record whose filename contains no `'|'`, `'\n'` or `'\r'` and does not
start with whitespace, and whose fingerprint contains no `'\n'` or `'\r'` and
does not end in whitespace, appending and reloading yields the old records
with the appended record as the last element, exactly. -/
theorem c5_roundtrip (store fn key : String) (recs : List Record)
    (hstore : store = "" ∨ store.data.getLast? = some '\n')
    (hload : loadRecords store = some recs)
    (hfn : ∀ ch ∈ fn.data, ch ≠ '|' ∧ ch ≠ '\n' ∧ ch ≠ '\r')
    (hfnh : ∀ ch, fn.data.head? = some ch → pyIsSpace ch = false)
    (hkey : ∀ ch ∈ key.data, ch ≠ '\n' ∧ ch ≠ '\r')
    (hkeyl : ∀ ch, key.data.getLast? = some ch → pyIsSpace ch = false) :
    loadRecords (appendRecord store fn key) = some (recs ++ [(fn, key)]) ∧
    (recs ++ [(fn, key)]).getLast? = some (fn, key) := by
  have h := loadRecords_append hstore hload
    (fun ch hc => ⟨(hfn ch hc).1, (hfn ch hc).2.1⟩)
    (fun ch hc => (hkey ch hc).1) hkeyl
  rw [dropWhile_eq_self_of_head hfnh] at h
  exact ⟨h, List.getLast?_concat _⟩

/-- Witness for C5 at a concrete store and record. -/
theorem c5_witness :
    loadRecords (appendRecord "x|y\n" "v.mp4" "K") = some [("x", "y"), ("v.mp4", "K")] ∧
    ([("x", "y"), ("v.mp4", "K")] : List Record).getLast? = some ("v.mp4", "K") := by
  have h := c5_roundtrip "x|y\n" "v.mp4" "K" [("x", "y")]
    (Or.inr (by decide)) (by decide) (by decide) (by decide) (by decide) (by decide)
  exact ⟨h.1, h.2⟩

/-- C9 (claim as stated is false): the engine does store and compare
`basename path`, but a stored filename is mangled by `line.strip()` on
reload, so two submissions with the equal basename `" a.mp4"` (leading
space) both get **accepted** — the second is not rejected as `ExactFilename`
although the basenames are equal and only the directories differ. -/
theorem c9_counterexample :
    basename "d/ a.mp4" = basename "e/ a.mp4" ∧
    process_video "" "d/ a.mp4" (some frame0) =
      (Outcome.accepted, appendRecord "" " a.mp4" (videoKey frame0)) ∧
    (process_video (appendRecord "" " a.mp4" (videoKey frame0)) "e/ a.mp4"
        (some frame1)).1 = Outcome.accepted := by
  refine ⟨by decide, by decide, by decide⟩

/-- C9 (amended): when the basename contains no `'|'` or `'\n'` and does not
start with whitespace (so that its stored line reloads intact), an accepted
submission makes every later submission of a path with the same basename be
rejected as `exactFilename` against that stored record, whatever directory
the path lies in and whatever its decode result. -/
theorem c9_basename_identity (store p1 p2 : String) (d1 d2 : Option Frame) (store' : String)
    (hstore : store = "" ∨ store.data.getLast? = some '\n')
    (hfn : ∀ ch ∈ (basename p1).data, ch ≠ '|' ∧ ch ≠ '\n')
    (hfnh : ∀ ch, (basename p1).data.head? = some ch → pyIsSpace ch = false)
    (h1 : process_video store p1 d1 = (Outcome.accepted, store'))
    (hb : basename p2 = basename p1) :
    ∃ key, (process_video store' p2 d2).1 =
      Outcome.rejected (Reason.exactFilename (basename p1, key)) := by
  obtain ⟨recs, frame, hl, hc, -, -, rfl⟩ := process_video_accepted_inv h1
  refine ⟨videoKey frame, ?_⟩
  have hload' : loadRecords (appendRecord store (basename p1) (videoKey frame)) =
      some (recs ++ [(String.mk ((basename p1).data.dropWhile pyIsSpace), videoKey frame)]) :=
    loadRecords_append hstore hl hfn
      (fun ch hch => (videoKey_clean frame ch hch).1)
      (videoKey_getLast_not_space frame)
  rw [dropWhile_eq_self_of_head hfnh] at hload'
  have heta : String.mk (basename p1).data = basename p1 := rfl
  rw [heta] at hload'
  have hfind : (recs ++ [(basename p1, videoKey frame)]).find?
      (fun r => r.1 == basename p2) = some (basename p1, videoKey frame) := by
    rw [hb, List.find?_append, checkDuplicate_none_exact hc, Option.none_or]
    simp [List.find?_cons]
  simp only [process_video]
  rw [hload']
  dsimp only
  unfold checkDuplicate
  rw [hfind]

/-- Witness for C9 at a concrete clean basename. -/
theorem c9_witness :
    ∃ key, (process_video (appendRecord "" "v.mp4" (videoKey frame0)) "e/v.mp4" none).1 =
      Outcome.rejected (Reason.exactFilename (basename "d/v.mp4", key)) :=
  c9_basename_identity "" "d/v.mp4" "e/v.mp4" (some frame0) none
    (appendRecord "" "v.mp4" (videoKey frame0)) (Or.inl rfl)
    (by decide) (by decide) (by decide) (by decide)

/-- C10 (claim as stated is false): the "splits back with the fingerprint
field recovered exactly" consequence fails for a filename containing `'|'`:
the load splits at the *filename's* first `'|'`, so the recovered fingerprint
field is `"b|" ++ fingerprint`, not the fingerprint. -/
theorem c10_counterexample :
    loadRecords (appendRecord "" "a|b" (videoKey frame0)) =
      some [("a", "b|" ++ videoKey frame0)] ∧
    "b|" ++ videoKey frame0 ≠ videoKey frame0 := by
  refine ⟨by decide, by decide⟩

/-- C10 (amended): every generated fingerprint is the comma-join of 16 tokens
of the form `'#'` followed by six uppercase hex digits, so it contains only
`'#'`, `','` and uppercase hex digits (never `'|'`, whitespace or a newline);
consequently, for every filename containing neither `'|'` nor `'\n'`, the
appended `filename|fingerprint` line loads back with the fingerprint field
recovered exactly. -/
theorem c10_fingerprint_alphabet (f : Frame) :
    (videoColors f).length = GRID * GRID ∧
    videoKey f = String.intercalate "," (videoColors f) ∧
    (∀ t ∈ videoColors f, t.length = 7 ∧ t.data.head? = some '#' ∧
        (t.data.drop 1).all isUpperHexDigit = true) ∧
    (∀ ch ∈ (videoKey f).data, ch = '#' ∨ ch = ',' ∨ isUpperHexDigit ch = true) ∧
    ∀ fn : String, (∀ ch ∈ fn.data, ch ≠ '|' ∧ ch ≠ '\n') →
      loadRecords (appendRecord "" fn (videoKey f)) =
        some [(String.mk (fn.data.dropWhile pyIsSpace), videoKey f)] := by
  refine ⟨by simp [videoColors]; decide, rfl, ?_, videoKey_chars f, ?_⟩
  · intro t ht
    obtain ⟨p, -, rfl⟩ := List.mem_map.mp ht
    exact samplePoint_token f p
  · intro fn hfn
    have h := loadRecords_append (Or.inl rfl)
      (show loadRecords "" = some [] from rfl) hfn
      (fun ch hch => (videoKey_clean f ch hch).1)
      (videoKey_getLast_not_space f)
    simpa using h

/-- Witness for C10 at the zero-size frame and a concrete clean filename. -/
theorem c10_witness :
    loadRecords (appendRecord "" "v.mp4" (videoKey frame0)) =
      some [("v.mp4", videoKey frame0)] ∧
    (videoColors frame0).length = GRID * GRID := by
  have h := (c10_fingerprint_alphabet frame0).2.2.2.2 "v.mp4" (by decide)
  refine ⟨?_, (c10_fingerprint_alphabet frame0).1⟩
  rw [h]
  decide

end VideoDedupe

